import Mathlib

/-!
Verification of the asynchronous optimization driver in PyBNF's
`pybnf/algorithms.py`: the `Algorithm` base-class contract and the
`ParticleSwarm` optimizer.

Modelling conventions:
* numeric values (scores, positions, velocities, tolerances, random draws)
  are rationals;
* the `np.inf` sentinels used for "no best seen yet" are modelled by `none`
  in an `Option ℚ` (so `none` stands for +infinity, larger than every
  rational);
* the `[None, np.inf]` placeholders for per-particle and global bests are
  modelled by `none : Option (PSet × ℚ)`;
* randomness is modelled by passing the streams of random draws as explicit
  function arguments;
* Python exceptions are modelled by `Except AlgError`.
-/

namespace PyBNF

/-- A parameter set: the values of the configured variables, in the fixed
order of `variable_list`.  Structural equality models the dict-based
equality and hashing of `pset.PSet`, which makes PSets usable as keys of
`pset_map`. -/
structure PSet where
  vals : List ℚ
deriving DecidableEq, Repr

/-- Modelled from the spec: the `PSet` constructor (file `pset.py`, which is
not among the sources at hand) "by default rejects negative values unless
explicitly permitted" via the `allow_negative` flag. -/
def PSet.mkChecked (allowNegative : Bool) (vals : List ℚ) : Option PSet :=
  if allowNegative || vals.all (fun x => decide (0 ≤ x)) then some ⟨vals⟩ else none

/-- The `PSet(..., allow_negative=True)` construction of line 287-288:
with the flag set, construction always succeeds (see
`mkChecked_true_eq_mkAllowNegative`). -/
def PSet.mkAllowNegative (vals : List ℚ) : PSet := ⟨vals⟩

/-- Errors the Python code can raise in the modelled fragment. -/
inductive AlgError where
  /-- `NotImplementedError` raised by the abstract `Algorithm` base class. -/
  | notImplemented
  /-- `KeyError` from `dict.pop` on a PSet missing from `pset_map`. -/
  | keyError
  /-- `IndexError` from list indexing with an out-of-range particle number. -/
  | indexError
  /-- `TypeError` from subscripting a `None` placeholder best. -/
  | typeError
  /-- Rejection of a negative value by the `PSet` constructor. -/
  | valueError
deriving DecidableEq, Repr

/-- Decidable equality of modelled call outcomes, for concrete checks. -/
instance exceptDecEq {ε α : Type} [DecidableEq ε] [DecidableEq α] :
    DecidableEq (Except ε α) := fun x y =>
  match x, y with
  | .error a, .error b =>
    if h : a = b then .isTrue (by rw [h])
    else .isFalse (by intro hc; cases hc; exact h rfl)
  | .error _, .ok _ => .isFalse (by intro hc; cases hc)
  | .ok _, .error _ => .isFalse (by intro hc; cases hc)
  | .ok a, .ok b =>
    if h : a = b then .isTrue (by rw [h])
    else .isFalse (by intro hc; cases hc; exact h rfl)

/-- The answer of `got_result`: the sentinel `'STOP'` or a list of new PSets
to schedule. -/
inductive Response where
  | stop
  | psets (l : List PSet)
deriving DecidableEq, Repr

/-- Lookup in `pset_map` (a Python dict keyed by PSets). -/
def dictLookup : List (PSet × ℕ) → PSet → Option ℕ
  | [], _ => none
  | e :: rest, k => if e.1 = k then some e.2 else dictLookup rest k

/-- Assignment `pset_map[k] = v` of a Python dict: replaces the value of an
existing key, otherwise appends the new entry. -/
def dictInsert : List (PSet × ℕ) → PSet → ℕ → List (PSet × ℕ)
  | [], k, v => [(k, v)]
  | e :: rest, k, v => if e.1 = k then (k, v) :: rest else e :: dictInsert rest k v

/-- `pset_map.pop(k)`: returns the value and the dict without the key, or
`none` (Python: raises `KeyError`) when the key is absent. -/
def dictPop : List (PSet × ℕ) → PSet → Option (ℕ × List (PSet × ℕ))
  | [], _ => none
  | e :: rest, k =>
    if e.1 = k then some (e.2, rest)
    else (dictPop rest k).map (fun r => (r.1, e :: r.2))

/-- The configuration parameters saved by `ParticleSwarm.__init__`
(lines 207-220).  `nStop = none` models the default `np.inf` for
`adaptive_n_stop`. -/
structure PSOParams where
  c1 : ℚ
  c2 : ℚ
  populationSize : ℕ
  maxIterations : ℕ
  w0 : ℚ
  wf : ℚ
  nmax : ℚ
  nStop : Option ℚ
  absTol : ℚ
  relTol : ℚ
  varCount : ℕ
deriving DecidableEq, Repr

/-- `self.max_evals = config['population_size'] * config['max_iterations']`
(line 209). -/
def PSOParams.maxEvals (P : PSOParams) : ℕ := P.populationSize * P.maxIterations

/-- The mutable swarm state of a `ParticleSwarm` instance. -/
structure SwarmState where
  /-- `self.swarm`: list of `[PSet, velocity]` pairs. -/
  swarm : List (PSet × List ℚ)
  /-- `self.pset_map`: maps each PSet to its particle number. -/
  psetMap : List (PSet × ℕ)
  /-- `self.bests`: best `[PSet, objective]` per particle; `none` models the
  initial `[None, np.inf]`. -/
  bests : List (Option (PSet × ℚ))
  /-- `self.global_best`; `none` models the initial `[None, np.inf]`. -/
  globalBest : Option (PSet × ℚ)
  /-- `self.last_best`; `none` models the initial `np.inf`. -/
  lastBest : Option ℚ
  /-- `self.nv`: number of "unproductive" iterations. -/
  nv : ℕ
  /-- `self.num_evals`: total number of results received. -/
  numEvals : ℕ
deriving DecidableEq, Repr

/-- The state set up by `ParticleSwarm.__init__` (lines 222-232). -/
def initState (P : PSOParams) : SwarmState where
  swarm := []
  psetMap := []
  bests := List.replicate P.populationSize none
  globalBest := none
  lastBest := none
  nv := 0
  numEvals := 0

/-- A completed simulation result.  `simdata` stands in for the simulation
data handed to `objective.evaluate`. -/
structure Result where
  pset : PSet
  simdata : ℚ
deriving DecidableEq, Repr

/-- The test `score < x` against a possibly-infinite stored score `x`
(`none` = `np.inf`): a finite rational is smaller than infinity. -/
def scoreLtOpt (q : ℚ) : Option ℚ → Bool
  | none => true
  | some b => decide (q < b)

/-- The "was this pseudoflight productive" test of lines 264-266:
`self.last_best != np.inf and np.abs(self.last_best - self.global_best[1]) <
self.absolute_tol + self.relative_tol * self.last_best`.  When `lastBest`
is infinite the first conjunct fails; when `globalScore` is infinite while
`lastBest` is finite, `np.abs` yields `inf`, which is not `<` any finite
tolerance, so the test is false in that case too. -/
def unproductiveCheck (P : PSOParams) (lastBest globalScore : Option ℚ) : Bool :=
  match lastBest, globalScore with
  | some lb, some gb => decide (|lb - gb| < P.absTol + P.relTol * lb)
  | _, _ => false

/-- The pseudoflight bookkeeping of lines 262-268, applied to the state
with `num_evals` already incremented. -/
def pseudoflightUpdate (P : PSOParams) (s : SwarmState) : SwarmState :=
  if s.numEvals % P.populationSize = 0 then
    { s with
      nv := if unproductiveCheck P s.lastBest (s.globalBest.map Prod.snd) then s.nv + 1 else s.nv,
      lastBest := s.globalBest.map Prod.snd }
  else s

/-- The best-score updates of lines 274-277: the personal best of particle
`p` is replaced when the new score improves on it, and only then is the
global best considered for replacement. -/
def bestsUpdate (s : SwarmState) (p : ℕ) (pset : PSet) (score : ℚ) : SwarmState :=
  if scoreLtOpt score ((s.bests.getD p none).map Prod.snd) then
    { s with
      bests := s.bests.set p (some (pset, score)),
      globalBest :=
        if scoreLtOpt score (s.globalBest.map Prod.snd) then some (pset, score)
        else s.globalBest }
  else s

/-- The inertia weight of line 281:
`w = self.w0 + (self.wf - self.w0) * self.nv / (self.nv + self.nmax)`. -/
def inertiaWeight (w0 wf nmax : ℚ) (nv : ℕ) : ℚ :=
  w0 + (wf - w0) * (nv : ℚ) / ((nv : ℚ) + nmax)

/-- The per-variable velocity update of lines 282-286, with `u1 j` and
`u2 j` the two `np.random.random()` draws made for the variable at index
`j`. -/
def updatedVelocity (P : PSOParams) (w : ℚ) (pos vel pbest gbest : List ℚ)
    (u1 u2 : ℕ → ℚ) : List ℚ :=
  (List.range P.varCount).map (fun j =>
    w * vel.getD j 0 + P.c1 * u1 j * (pbest.getD j 0 - pos.getD j 0)
      + P.c2 * u2 j * (gbest.getD j 0 - pos.getD j 0))

/-- The per-variable position update of line 287: old position plus the
freshly updated velocity. -/
def newPositionVals (P : PSOParams) (pos newVel : List ℚ) : List ℚ :=
  (List.range P.varCount).map (fun j => pos.getD j 0 + newVel.getD j 0)

/-- The stop test `self.nv >= self.n_stop` of line 293; with the default
`n_stop = np.inf` (modelled by `none`) it never holds. -/
def nvStopReached (nv : ℕ) (nStop : Option ℚ) : Bool :=
  match nStop with
  | none => false
  | some q => decide ((nv : ℚ) ≥ q)

/-- The state after lines 260-268 of `got_result`: `num_evals` incremented
and the pseudoflight bookkeeping applied. -/
def postPseudoflight (P : PSOParams) (s : SwarmState) : SwarmState :=
  pseudoflightUpdate P { s with numEvals := s.numEvals + 1 }

/-- The state after line 277 of `got_result`: `pset_map` with the result's
PSet popped (`poppedMap`), and the best-score updates applied to particle
`p` with the freshly computed score. -/
def postBests (P : PSOParams) (objective : ℚ → ℚ) (s : SwarmState)
    (res : Result) (p : ℕ) (poppedMap : List (PSet × ℕ)) : SwarmState :=
  bestsUpdate { postPseudoflight P s with psetMap := poppedMap } p res.pset
    (objective res.simdata)

/-- Everything `ParticleSwarm.got_result` (lines 249-291) does before the
stop check: increments `num_evals`, runs the pseudoflight bookkeeping,
scores the result, pops the particle number from `pset_map`, updates the
bests, recomputes velocity and position, stores and registers the new
position.  Returns the updated state together with the new PSet. -/
def gotResultCore (P : PSOParams) (objective : ℚ → ℚ) (s : SwarmState)
    (res : Result) (u1 u2 : ℕ → ℚ) : Except AlgError (SwarmState × PSet) :=
  match dictPop (postPseudoflight P s).psetMap res.pset with
  | none => .error .keyError
  | some (p, poppedMap) =>
    if p < (postPseudoflight P s).swarm.length ∧
        p < (postPseudoflight P s).bests.length then
      let s3 := postBests P objective s res p poppedMap
      let w := inertiaWeight P.w0 P.wf P.nmax s3.nv
      let pos := (s3.swarm.getD p (⟨[]⟩, [])).1.vals
      let vel := (s3.swarm.getD p (⟨[]⟩, [])).2
      match s3.bests.getD p none, s3.globalBest with
      | some pb, some gb =>
        let newVel := updatedVelocity P w pos vel pb.1.vals gb.1.vals u1 u2
        let newPset := PSet.mkAllowNegative (newPositionVals P pos newVel)
        .ok ({ s3 with
                swarm := s3.swarm.set p (newPset, newVel),
                psetMap := dictInsert s3.psetMap newPset p }, newPset)
      | _, _ => .error .typeError
    else .error .indexError

/-- `ParticleSwarm.got_result`: the state update of `gotResultCore`
followed by the stop check of lines 292-296 (`num_evals >= max_evals or
nv >= n_stop`). -/
def gotResult (P : PSOParams) (objective : ℚ → ℚ) (s : SwarmState)
    (res : Result) (u1 u2 : ℕ → ℚ) : Except AlgError (SwarmState × Response) :=
  match gotResultCore P objective s res u1 u2 with
  | .error e => .error e
  | .ok (s', newPset) =>
    if s'.numEvals ≥ P.maxEvals ∨ nvStopReached s'.nv P.nStop = true then .ok (s', .stop)
    else .ok (s', .psets [newPset])

/-- The initial position sampled for particle `i` in `start_run` (line 241):
one draw `posDraw i j` (uniform on `[0, 4]` in the source) per variable. -/
def initPSet (P : PSOParams) (posDraw : ℕ → ℕ → ℚ) (i : ℕ) : PSet :=
  ⟨(List.range P.varCount).map (posDraw i)⟩

/-- The initial velocity sampled for particle `i` in `start_run` (line 243):
one draw `velDraw i j` (uniform on `[-1, 1]` in the source) per variable. -/
def initVel (P : PSOParams) (velDraw : ℕ → ℕ → ℚ) (i : ℕ) : List ℚ :=
  (List.range P.varCount).map (velDraw i)

/-- The loop of `start_run` (lines 240-245) over the given particle
indices: builds each initial PSet with the default (negative-rejecting)
`PSet` constructor, appends the particle to the swarm and registers its
position in `pset_map`. -/
def startRunLoop (P : PSOParams) (posDraw velDraw : ℕ → ℕ → ℚ) :
    List ℕ → SwarmState → Except AlgError SwarmState
  | [], s => .ok s
  | i :: rest, s =>
    match PSet.mkChecked false (initPSet P posDraw i).vals with
    | none => .error .valueError
    | some ps =>
      startRunLoop P posDraw velDraw rest
        { s with
          swarm := s.swarm ++ [(ps, initVel P velDraw i)],
          psetMap := dictInsert s.psetMap ps i }

/-- `ParticleSwarm.start_run` (lines 234-247): runs the initialization loop
for particle indices `0, ..., population_size - 1` and returns the list of
all swarm positions. -/
def startRun (P : PSOParams) (posDraw velDraw : ℕ → ℕ → ℚ) (s : SwarmState) :
    Except AlgError (SwarmState × List PSet) :=
  (startRunLoop P posDraw velDraw (List.range P.populationSize) s).map
    (fun s' => (s', s'.swarm.map Prod.fst))

/-- The state of an abstract `Algorithm` instance (lines 56-82): the data
relevant to the modelled fragment. -/
structure AlgorithmBase where
  expData : List ℚ
  variableList : List String
deriving DecidableEq, Repr

/-- `Algorithm.start_run` (lines 84-92): the abstract base always raises
`NotImplementedError`. -/
def AlgorithmBase.start_run (_a : AlgorithmBase) : Except AlgError (List PSet) :=
  .error .notImplemented

/-- `Algorithm.got_result` (lines 94-104): the abstract base always raises
`NotImplementedError`. -/
def AlgorithmBase.got_result (_a : AlgorithmBase) (_res : Result) :
    Except AlgError Response :=
  .error .notImplemented

/-- A dispatchable unit of work (`Job`, lines 33-48), binding a parameter
set (the model reference is irrelevant to the modelled fragment). -/
structure Job where
  params : PSet
deriving DecidableEq, Repr

/-- The prologue of `Algorithm.run` (lines 126-127): obtain the initial
PSets from `start_run` and wrap each in a `Job`.  If `start_run` raises,
the error propagates before any job exists. -/
def runInitialJobs (a : AlgorithmBase) : Except AlgError (List Job) :=
  (a.start_run).map (fun ps => ps.map (fun p => ⟨p⟩))

/-- A value of the configuration dict; `none` models `np.inf`. -/
abbrev ConfigVal := Option ℚ

/-- The configuration dict, keyed by option name. -/
abbrev Config := List (String × ConfigVal)

/-- Lookup `config[k]` in a Python dict. -/
def cfgGet : Config → String → Option ConfigVal
  | [], _ => none
  | e :: rest, k => if e.1 = k then some e.2 else cfgGet rest k

/-- Assignment `config[k] = v` of a Python dict: replaces the value of an
existing key, otherwise appends the new entry. -/
def cfgInsert : Config → String → ConfigVal → Config
  | [], k, v => [(k, v)]
  | e :: rest, k, v => if e.1 = k then (k, v) :: rest else e :: cfgInsert rest k v

/-- The `defaults` dict of lines 195-196, in its literal order. -/
def psoDefaults : List (String × ConfigVal) :=
  [("particle_weight", some 1), ("adaptive_n_max", some 30),
   ("adaptive_n_stop", none), ("adaptive_abs_tol", some 0),
   ("adaptive_rel_tol", some 0)]

/-- One iteration of the defaults loop (lines 197-199): insert the default
only when the key is absent. -/
def defaultStep (c : Config) (d : String × ConfigVal) : Config :=
  if (cfgGet c d.1).isSome then c else cfgInsert c d.1 d.2

/-- The defaults loop of lines 197-199. -/
def applyDefaults (c : Config) : Config :=
  psoDefaults.foldl defaultStep c

/-- Lines 201-204: a missing `particle_weight_final` is set to the value of
`particle_weight` (always present after the defaults loop; the `none`
branch is unreachable there). -/
def applyWeightFinal (c : Config) : Config :=
  if (cfgGet c "particle_weight_final").isSome then c
  else
    match cfgGet c "particle_weight" with
    | some v => cfgInsert c "particle_weight_final" v
    | none => c

/-- The contents of the caller's config dict after `ParticleSwarm.__init__`
(lines 194-204); the mutation happens in place on the dict passed in. -/
def configAfterInit (c : Config) : Config :=
  applyWeightFinal (applyDefaults c)

section InertiaLemmas

/-- Difference of the inertia weight from its target value `wf`, in closed
form. -/
lemma inertiaWeight_sub_wf (w0 wf nmax : ℚ) (nv : ℕ) (hnmax : 0 < nmax) :
    inertiaWeight w0 wf nmax nv - wf = (w0 - wf) * (nmax / ((nv : ℚ) + nmax)) := by
  have hd : (0 : ℚ) < (nv : ℚ) + nmax := by positivity
  unfold inertiaWeight
  field_simp
  ring

/-- The interpolation ratio `nv / (nv + nmax)` lies in `[0, 1]`. -/
lemma inertia_ratio_mem (nmax : ℚ) (nv : ℕ) (hnmax : 0 < nmax) :
    0 ≤ (nv : ℚ) / ((nv : ℚ) + nmax) ∧ (nv : ℚ) / ((nv : ℚ) + nmax) ≤ 1 := by
  have hd : (0 : ℚ) < (nv : ℚ) + nmax := by positivity
  constructor
  · positivity
  · rw [div_le_one hd]
    linarith

end InertiaLemmas

/-- C4: the inertia weight `w = w0 + (wf - w0) * nv / (nv + nmax)` computed
by `got_result` equals `w0` at `nv = 0`, always lies between `w0` and `wf`
inclusive, moves monotonically from `w0` toward `wf` as `nv` grows (its
distance to `wf` is non-increasing in `nv`), and equals `0.55` for
`w0 = 1.0`, `wf = 0.1`, `nmax = 30`, `nv = 30`. -/
theorem pso_inertia_weight_props (w0 wf nmax : ℚ) (hnmax : 0 < nmax) :
    inertiaWeight w0 wf nmax 0 = w0 ∧
    (∀ nv : ℕ, min w0 wf ≤ inertiaWeight w0 wf nmax nv ∧
      inertiaWeight w0 wf nmax nv ≤ max w0 wf) ∧
    (∀ m n : ℕ, m ≤ n →
      |inertiaWeight w0 wf nmax n - wf| ≤ |inertiaWeight w0 wf nmax m - wf|) ∧
    inertiaWeight 1 (1 / 10) 30 30 = 11 / 20 := by
  refine ⟨?_, ?_, ?_, ?_⟩
  · simp [inertiaWeight]
  · intro nv
    obtain ⟨ht0, ht1⟩ := inertia_ratio_mem nmax nv hnmax
    have hw : inertiaWeight w0 wf nmax nv
        = w0 + (wf - w0) * ((nv : ℚ) / ((nv : ℚ) + nmax)) := by
      rw [inertiaWeight, mul_div_assoc]
    set t := (nv : ℚ) / ((nv : ℚ) + nmax) with ht
    rw [hw]
    rcases le_total w0 wf with h | h
    · rw [min_eq_left h, max_eq_right h]
      constructor
      · nlinarith
      · nlinarith
    · rw [min_eq_right h, max_eq_left h]
      constructor
      · nlinarith
      · nlinarith
  · intro m n hmn
    rw [inertiaWeight_sub_wf w0 wf nmax m hnmax,
        inertiaWeight_sub_wf w0 wf nmax n hnmax, abs_mul, abs_mul]
    have hdm : (0 : ℚ) < (m : ℚ) + nmax := by positivity
    have hdn : (0 : ℚ) < (n : ℚ) + nmax := by positivity
    have h1 : |nmax / ((n : ℚ) + nmax)| = nmax / ((n : ℚ) + nmax) :=
      abs_of_nonneg (by positivity)
    have h2 : |nmax / ((m : ℚ) + nmax)| = nmax / ((m : ℚ) + nmax) :=
      abs_of_nonneg (by positivity)
    rw [h1, h2]
    have hmn' : (m : ℚ) ≤ (n : ℚ) := by exact_mod_cast hmn
    have hdiv : nmax / ((n : ℚ) + nmax) ≤ nmax / ((m : ℚ) + nmax) := by
      apply div_le_div_of_nonneg_left (le_of_lt hnmax) hdm
      linarith
    exact mul_le_mul_of_nonneg_left hdiv (abs_nonneg _)
  · norm_num [inertiaWeight]

/-- Witness for `pso_inertia_weight_props` at `nmax = 30`. -/
theorem pso_inertia_weight_props_witness :
    (0 : ℚ) < 30 ∧
    (inertiaWeight 1 (1 / 10) 30 0 = 1 ∧
      (∀ nv : ℕ, min 1 (1 / 10 : ℚ) ≤ inertiaWeight 1 (1 / 10) 30 nv ∧
        inertiaWeight 1 (1 / 10) 30 nv ≤ max 1 (1 / 10 : ℚ)) ∧
      (∀ m n : ℕ, m ≤ n →
        |inertiaWeight 1 (1 / 10) 30 n - 1 / 10| ≤
          |inertiaWeight 1 (1 / 10) 30 m - 1 / 10|) ∧
      inertiaWeight 1 (1 / 10) 30 30 = 11 / 20) :=
  ⟨by norm_num, pso_inertia_weight_props 1 (1 / 10) 30 (by norm_num)⟩

/-- C8: invoking `start_run` or `got_result` on the abstract `Algorithm`
base class always raises a `NotImplementedError`-class error, for every
instance and every `Result` argument, and the run prologue therefore fails
before any `Job` is created. -/
theorem alg_base_abstract_contract (a : AlgorithmBase) (res : Result) :
    a.start_run = .error .notImplemented ∧
    a.got_result res = .error .notImplemented ∧
    runInitialJobs a = .error .notImplemented :=
  ⟨rfl, rfl, rfl⟩

section ConfigLemmas

/-- Looking up the key just assigned finds the assigned value. -/
lemma cfgGet_insert_self (c : Config) (k : String) (v : ConfigVal) :
    cfgGet (cfgInsert c k v) k = some v := by
  induction c with
  | nil => simp [cfgInsert, cfgGet]
  | cons e rest ih =>
    by_cases h : e.1 = k
    · simp [cfgInsert, cfgGet, h]
    · simp [cfgInsert, cfgGet, h, ih]

/-- Assigning one key leaves every other key's lookup unchanged. -/
lemma cfgGet_insert_ne (c : Config) (k : String) (v : ConfigVal) (k' : String)
    (h : k' ≠ k) : cfgGet (cfgInsert c k v) k' = cfgGet c k' := by
  induction c with
  | nil => simp [cfgInsert, cfgGet, Ne.symm h]
  | cons e rest ih =>
    by_cases he : e.1 = k
    · simp [cfgInsert, cfgGet, he, Ne.symm h]
    · simp [cfgInsert, cfgGet, he, ih]

/-- A defaults-loop step never changes a key that is already present. -/
lemma defaultStep_preserves_some (c : Config) (d : String × ConfigVal)
    (k : String) (v : ConfigVal) (h : cfgGet c k = some v) :
    cfgGet (defaultStep c d) k = some v := by
  unfold defaultStep
  split
  · exact h
  · rename_i habs
    by_cases hk : k = d.1
    · subst hk
      simp [h] at habs
    · rw [cfgGet_insert_ne _ _ _ _ hk]
      exact h

/-- A defaults-loop step leaves keys other than its own unchanged. -/
lemma defaultStep_ne (c : Config) (d : String × ConfigVal) (k : String)
    (h : k ≠ d.1) : cfgGet (defaultStep c d) k = cfgGet c k := by
  unfold defaultStep
  split
  · rfl
  · exact cfgGet_insert_ne _ _ _ _ h

/-- A defaults-loop step fills in its default when the key is absent. -/
lemma defaultStep_absent (c : Config) (d : String × ConfigVal)
    (h : cfgGet c d.1 = none) : cfgGet (defaultStep c d) d.1 = some d.2 := by
  unfold defaultStep
  rw [h]
  simp [cfgGet_insert_self]

/-- The defaults loop unfolded into its five literal steps. -/
lemma applyDefaults_eq (c : Config) :
    applyDefaults c =
      defaultStep (defaultStep (defaultStep (defaultStep (defaultStep c
        ("particle_weight", some 1)) ("adaptive_n_max", some 30))
        ("adaptive_n_stop", none)) ("adaptive_abs_tol", some 0))
        ("adaptive_rel_tol", some 0) := rfl

/-- `applyWeightFinal` never changes a key that is already present. -/
lemma applyWeightFinal_preserves_some (c : Config) (k : String) (v : ConfigVal)
    (h : cfgGet c k = some v) : cfgGet (applyWeightFinal c) k = some v := by
  unfold applyWeightFinal
  split
  · exact h
  · rename_i habs
    split
    · by_cases hk : k = "particle_weight_final"
      · subst hk
        simp [h] at habs
      · rw [cfgGet_insert_ne _ _ _ _ hk]
        exact h
    · exact h

/-- `applyWeightFinal` leaves keys other than `particle_weight_final`
unchanged. -/
lemma applyWeightFinal_ne (c : Config) (k : String)
    (h : k ≠ "particle_weight_final") :
    cfgGet (applyWeightFinal c) k = cfgGet c k := by
  unfold applyWeightFinal
  split
  · rfl
  · split
    · exact cfgGet_insert_ne _ _ _ _ h
    · rfl

/-- Keys already present in the config keep their value across
`applyDefaults`. -/
lemma applyDefaults_preserves_some (c : Config) (k : String) (v : ConfigVal)
    (h : cfgGet c k = some v) : cfgGet (applyDefaults c) k = some v := by
  rw [applyDefaults_eq]
  exact defaultStep_preserves_some _ _ _ _ (defaultStep_preserves_some _ _ _ _
    (defaultStep_preserves_some _ _ _ _ (defaultStep_preserves_some _ _ _ _
      (defaultStep_preserves_some _ _ _ _ h))))

end ConfigLemmas

/-- C10: after `ParticleSwarm.__init__`, the caller-supplied config dict
has been updated in place: every key already present keeps its value; each
of the five default keys that was absent now holds its default
(`particle_weight = 1.0`, `adaptive_n_max = 30`, `adaptive_n_stop = inf`,
`adaptive_abs_tol = 0`, `adaptive_rel_tol = 0`); a missing
`particle_weight_final` is set to the (post-defaults) value of
`particle_weight`; and keys outside these six are not introduced. -/
theorem pso_config_defaults (c : Config) :
    (∀ k v, cfgGet c k = some v → cfgGet (configAfterInit c) k = some v) ∧
    (cfgGet c "particle_weight" = none →
      cfgGet (configAfterInit c) "particle_weight" = some (some 1)) ∧
    (cfgGet c "adaptive_n_max" = none →
      cfgGet (configAfterInit c) "adaptive_n_max" = some (some 30)) ∧
    (cfgGet c "adaptive_n_stop" = none →
      cfgGet (configAfterInit c) "adaptive_n_stop" = some none) ∧
    (cfgGet c "adaptive_abs_tol" = none →
      cfgGet (configAfterInit c) "adaptive_abs_tol" = some (some 0)) ∧
    (cfgGet c "adaptive_rel_tol" = none →
      cfgGet (configAfterInit c) "adaptive_rel_tol" = some (some 0)) ∧
    (cfgGet c "particle_weight_final" = none →
      cfgGet (configAfterInit c) "particle_weight_final" =
        cfgGet (applyDefaults c) "particle_weight") ∧
    (∀ k, cfgGet c k = none →
      k ∉ ["particle_weight", "adaptive_n_max", "adaptive_n_stop",
        "adaptive_abs_tol", "adaptive_rel_tol", "particle_weight_final"] →
      cfgGet (configAfterInit c) k = none) := by
  refine ⟨?_, ?_, ?_, ?_, ?_, ?_, ?_, ?_⟩
  · intro k v h
    exact applyWeightFinal_preserves_some _ _ _ (applyDefaults_preserves_some _ _ _ h)
  · intro h
    refine applyWeightFinal_preserves_some _ _ _ ?_
    rw [applyDefaults_eq]
    rw [defaultStep_ne _ _ _ (by decide), defaultStep_ne _ _ _ (by decide),
        defaultStep_ne _ _ _ (by decide), defaultStep_ne _ _ _ (by decide)]
    exact defaultStep_absent c ("particle_weight", some 1) h
  · intro h
    refine applyWeightFinal_preserves_some _ _ _ ?_
    rw [applyDefaults_eq]
    rw [defaultStep_ne _ _ _ (by decide), defaultStep_ne _ _ _ (by decide),
        defaultStep_ne _ _ _ (by decide)]
    refine defaultStep_absent _ ("adaptive_n_max", some 30) ?_
    rw [defaultStep_ne _ _ _ (by decide)]
    exact h
  · intro h
    refine applyWeightFinal_preserves_some _ _ _ ?_
    rw [applyDefaults_eq]
    rw [defaultStep_ne _ _ _ (by decide), defaultStep_ne _ _ _ (by decide)]
    refine defaultStep_absent _ ("adaptive_n_stop", none) ?_
    rw [defaultStep_ne _ _ _ (by decide), defaultStep_ne _ _ _ (by decide)]
    exact h
  · intro h
    refine applyWeightFinal_preserves_some _ _ _ ?_
    rw [applyDefaults_eq]
    rw [defaultStep_ne _ _ _ (by decide)]
    refine defaultStep_absent _ ("adaptive_abs_tol", some 0) ?_
    rw [defaultStep_ne _ _ _ (by decide), defaultStep_ne _ _ _ (by decide),
        defaultStep_ne _ _ _ (by decide)]
    exact h
  · intro h
    rw [configAfterInit, applyWeightFinal_ne _ _ (by decide), applyDefaults_eq]
    refine defaultStep_absent _ ("adaptive_rel_tol", some 0) ?_
    rw [defaultStep_ne _ _ _ (by decide), defaultStep_ne _ _ _ (by decide),
        defaultStep_ne _ _ _ (by decide), defaultStep_ne _ _ _ (by decide)]
    exact h
  · intro h
    have habs : cfgGet (applyDefaults c) "particle_weight_final" = none := by
      rw [applyDefaults_eq]
      rw [defaultStep_ne _ _ _ (by decide), defaultStep_ne _ _ _ (by decide),
          defaultStep_ne _ _ _ (by decide), defaultStep_ne _ _ _ (by decide),
          defaultStep_ne _ _ _ (by decide)]
      exact h
    rw [configAfterInit, applyWeightFinal, habs]
    simp only [Option.isSome_none, Bool.false_eq_true, if_false]
    cases hpw : cfgGet (applyDefaults c) "particle_weight" with
    | none =>
      simp only [hpw]
      exact habs
    | some v =>
      simp only [hpw]
      simp [cfgGet_insert_self]
  · intro k hk hmem
    simp only [List.mem_cons, List.not_mem_nil, or_false] at hmem
    push_neg at hmem
    obtain ⟨h1, h2, h3, h4, h5, h6⟩ := hmem
    rw [configAfterInit, applyWeightFinal_ne _ _ h6, applyDefaults_eq,
        defaultStep_ne _ _ _ h5, defaultStep_ne _ _ _ h4,
        defaultStep_ne _ _ _ h3, defaultStep_ne _ _ _ h2,
        defaultStep_ne _ _ _ h1]
    exact hk

/-- Witness for `pso_config_defaults` at the empty config. -/
theorem pso_config_defaults_witness :
    cfgGet (configAfterInit []) "particle_weight" = some (some 1) ∧
    cfgGet (configAfterInit []) "adaptive_n_stop" = some none ∧
    cfgGet (configAfterInit []) "particle_weight_final" =
      cfgGet (applyDefaults []) "particle_weight" ∧
    cfgGet (configAfterInit []) "cognitive" = none := by
  have h := pso_config_defaults []
  exact ⟨h.2.1 rfl, h.2.2.2.1 rfl, h.2.2.2.2.2.2.1 rfl,
    h.2.2.2.2.2.2.2 "cognitive" rfl (by decide)⟩

section StepLemmas

@[simp] lemma pseudoflightUpdate_swarm (P : PSOParams) (s : SwarmState) :
    (pseudoflightUpdate P s).swarm = s.swarm := by
  unfold pseudoflightUpdate
  split <;> rfl

@[simp] lemma pseudoflightUpdate_psetMap (P : PSOParams) (s : SwarmState) :
    (pseudoflightUpdate P s).psetMap = s.psetMap := by
  unfold pseudoflightUpdate
  split <;> rfl

@[simp] lemma pseudoflightUpdate_bests (P : PSOParams) (s : SwarmState) :
    (pseudoflightUpdate P s).bests = s.bests := by
  unfold pseudoflightUpdate
  split <;> rfl

@[simp] lemma pseudoflightUpdate_globalBest (P : PSOParams) (s : SwarmState) :
    (pseudoflightUpdate P s).globalBest = s.globalBest := by
  unfold pseudoflightUpdate
  split <;> rfl

@[simp] lemma pseudoflightUpdate_numEvals (P : PSOParams) (s : SwarmState) :
    (pseudoflightUpdate P s).numEvals = s.numEvals := by
  unfold pseudoflightUpdate
  split <;> rfl

@[simp] lemma bestsUpdate_swarm (s : SwarmState) (p : ℕ) (ps : PSet) (q : ℚ) :
    (bestsUpdate s p ps q).swarm = s.swarm := by
  unfold bestsUpdate
  split <;> rfl

@[simp] lemma bestsUpdate_psetMap (s : SwarmState) (p : ℕ) (ps : PSet) (q : ℚ) :
    (bestsUpdate s p ps q).psetMap = s.psetMap := by
  unfold bestsUpdate
  split <;> rfl

@[simp] lemma bestsUpdate_lastBest (s : SwarmState) (p : ℕ) (ps : PSet) (q : ℚ) :
    (bestsUpdate s p ps q).lastBest = s.lastBest := by
  unfold bestsUpdate
  split <;> rfl

@[simp] lemma bestsUpdate_nv (s : SwarmState) (p : ℕ) (ps : PSet) (q : ℚ) :
    (bestsUpdate s p ps q).nv = s.nv := by
  unfold bestsUpdate
  split <;> rfl

@[simp] lemma bestsUpdate_numEvals (s : SwarmState) (p : ℕ) (ps : PSet) (q : ℚ) :
    (bestsUpdate s p ps q).numEvals = s.numEvals := by
  unfold bestsUpdate
  split <;> rfl

@[simp] lemma postPseudoflight_swarm (P : PSOParams) (s : SwarmState) :
    (postPseudoflight P s).swarm = s.swarm := by
  unfold postPseudoflight
  simp

@[simp] lemma postPseudoflight_psetMap (P : PSOParams) (s : SwarmState) :
    (postPseudoflight P s).psetMap = s.psetMap := by
  unfold postPseudoflight
  simp

@[simp] lemma postPseudoflight_bests (P : PSOParams) (s : SwarmState) :
    (postPseudoflight P s).bests = s.bests := by
  unfold postPseudoflight
  simp

@[simp] lemma postPseudoflight_globalBest (P : PSOParams) (s : SwarmState) :
    (postPseudoflight P s).globalBest = s.globalBest := by
  unfold postPseudoflight
  simp

@[simp] lemma postPseudoflight_numEvals (P : PSOParams) (s : SwarmState) :
    (postPseudoflight P s).numEvals = s.numEvals + 1 := by
  unfold postPseudoflight
  simp

@[simp] lemma postBests_swarm (P : PSOParams) (obj : ℚ → ℚ) (s : SwarmState)
    (res : Result) (p : ℕ) (m' : List (PSet × ℕ)) :
    (postBests P obj s res p m').swarm = s.swarm := by
  unfold postBests
  simp

@[simp] lemma postBests_psetMap (P : PSOParams) (obj : ℚ → ℚ) (s : SwarmState)
    (res : Result) (p : ℕ) (m' : List (PSet × ℕ)) :
    (postBests P obj s res p m').psetMap = m' := by
  unfold postBests
  simp

@[simp] lemma postBests_nv (P : PSOParams) (obj : ℚ → ℚ) (s : SwarmState)
    (res : Result) (p : ℕ) (m' : List (PSet × ℕ)) :
    (postBests P obj s res p m').nv = (postPseudoflight P s).nv := by
  unfold postBests
  simp

@[simp] lemma postBests_lastBest (P : PSOParams) (obj : ℚ → ℚ) (s : SwarmState)
    (res : Result) (p : ℕ) (m' : List (PSet × ℕ)) :
    (postBests P obj s res p m').lastBest = (postPseudoflight P s).lastBest := by
  unfold postBests
  simp

@[simp] lemma postBests_numEvals (P : PSOParams) (obj : ℚ → ℚ) (s : SwarmState)
    (res : Result) (p : ℕ) (m' : List (PSet × ℕ)) :
    (postBests P obj s res p m').numEvals = s.numEvals + 1 := by
  unfold postBests
  simp

@[simp] lemma mkChecked_true_eq_mkAllowNegative (vals : List ℚ) :
    PSet.mkChecked true vals = some (PSet.mkAllowNegative vals) := rfl

/-- Full characterization of a successful `gotResultCore` call: the PSet
was found in the map at particle `p`, the index was in range, the updated
personal and global bests are set, and the new state stores the freshly
computed velocity and position for `p` and registers the new PSet. -/
lemma gotResultCore_ok_elim {P : PSOParams} {obj : ℚ → ℚ} {s : SwarmState}
    {res : Result} {u1 u2 : ℕ → ℚ} {s' : SwarmState} {np : PSet}
    (hc : gotResultCore P obj s res u1 u2 = .ok (s', np)) :
    ∃ p m' pb gb,
      dictPop s.psetMap res.pset = some (p, m') ∧
      p < s.swarm.length ∧ p < s.bests.length ∧
      (postBests P obj s res p m').bests.getD p none = some pb ∧
      (postBests P obj s res p m').globalBest = some gb ∧
      np = PSet.mkAllowNegative (newPositionVals P (s.swarm.getD p (⟨[]⟩, [])).1.vals
        (updatedVelocity P
          (inertiaWeight P.w0 P.wf P.nmax (postPseudoflight P s).nv)
          (s.swarm.getD p (⟨[]⟩, [])).1.vals (s.swarm.getD p (⟨[]⟩, [])).2
          pb.1.vals gb.1.vals u1 u2)) ∧
      s'.swarm = s.swarm.set p (np,
        updatedVelocity P
          (inertiaWeight P.w0 P.wf P.nmax (postPseudoflight P s).nv)
          (s.swarm.getD p (⟨[]⟩, [])).1.vals (s.swarm.getD p (⟨[]⟩, [])).2
          pb.1.vals gb.1.vals u1 u2) ∧
      s'.psetMap = dictInsert m' np p ∧
      s'.bests = (postBests P obj s res p m').bests ∧
      s'.globalBest = (postBests P obj s res p m').globalBest ∧
      s'.lastBest = (postPseudoflight P s).lastBest ∧
      s'.nv = (postPseudoflight P s).nv ∧
      s'.numEvals = s.numEvals + 1 := by
  unfold gotResultCore at hc
  split at hc
  · exact absurd hc (by simp)
  next p m' hpop =>
    rw [postPseudoflight_psetMap] at hpop
    split at hc
    · next hlen =>
      rw [postPseudoflight_swarm, postPseudoflight_bests] at hlen
      dsimp only at hc
      split at hc
      next pb gb hpb hgb =>
        simp only [Except.ok.injEq, Prod.mk.injEq] at hc
        obtain ⟨hs', hnp⟩ := hc
        subst hnp
        refine ⟨p, m', pb, gb, hpop, hlen.1, hlen.2, hpb, hgb, ?_, ?_⟩
        · rw [postBests_swarm, postBests_nv]
        · rw [← hs']
          refine ⟨?_, ?_, ?_, ?_, ?_, ?_, ?_⟩ <;>
            simp [postBests_swarm, postBests_nv, postBests_psetMap,
              postBests_lastBest, postBests_numEvals]
      next h12 =>
        exact absurd hc (by simp)
    · exact absurd hc (by simp)

/-- A PSet missing from `pset_map` makes `gotResultCore` raise the
`KeyError` of `dict.pop` (line 271). -/
lemma gotResultCore_keyError {P : PSOParams} {obj : ℚ → ℚ} {s : SwarmState}
    {res : Result} {u1 u2 : ℕ → ℚ}
    (h : dictPop s.psetMap res.pset = none) :
    gotResultCore P obj s res u1 u2 = .error .keyError := by
  unfold gotResultCore
  rw [postPseudoflight_psetMap, h]

/-- `gotResult` passes errors of `gotResultCore` through unchanged. -/
lemma gotResult_error {P : PSOParams} {obj : ℚ → ℚ} {s : SwarmState}
    {res : Result} {u1 u2 : ℕ → ℚ} {e : AlgError}
    (h : gotResultCore P obj s res u1 u2 = .error e) :
    gotResult P obj s res u1 u2 = .error e := by
  unfold gotResult
  rw [h]

/-- A successful `gotResult` comes from a successful `gotResultCore` with
the same final state, and answers `stop` exactly when the stop condition
of line 293 holds in that state. -/
lemma gotResult_ok_elim {P : PSOParams} {obj : ℚ → ℚ} {s : SwarmState}
    {res : Result} {u1 u2 : ℕ → ℚ} {s' : SwarmState} {r : Response}
    (h : gotResult P obj s res u1 u2 = .ok (s', r)) :
    ∃ np, gotResultCore P obj s res u1 u2 = .ok (s', np) ∧
      ((s'.numEvals ≥ P.maxEvals ∨ nvStopReached s'.nv P.nStop = true ∧ r = .stop) ∨
        ¬ (s'.numEvals ≥ P.maxEvals ∨ nvStopReached s'.nv P.nStop = true) ∧ r = .psets [np]) ∧
      (r = .stop ↔ (s'.numEvals ≥ P.maxEvals ∨ nvStopReached s'.nv P.nStop = true)) := by
  unfold gotResult at h
  cases hc : gotResultCore P obj s res u1 u2 with
  | error e => rw [hc] at h; simp at h
  | ok pr =>
    obtain ⟨s₀, np⟩ := pr
    rw [hc] at h
    dsimp only at h
    by_cases hstop : s₀.numEvals ≥ P.maxEvals ∨ nvStopReached s₀.nv P.nStop = true
    · rw [if_pos hstop] at h
      simp only [Except.ok.injEq, Prod.mk.injEq] at h
      obtain ⟨hs, hr⟩ := h
      subst hs
      refine ⟨np, rfl, Or.inl ?_, ?_⟩
      · rcases hstop with h1 | h2
        · exact Or.inl h1
        · exact Or.inr ⟨h2, hr.symm⟩
      · simp [← hr, hstop]
    · rw [if_neg hstop] at h
      simp only [Except.ok.injEq, Prod.mk.injEq] at h
      obtain ⟨hs, hr⟩ := h
      subst hs
      refine ⟨np, rfl, Or.inr ⟨hstop, hr.symm⟩, ?_⟩
      simp [← hr, hstop]

end StepLemmas

/-- Minimum of two possibly-infinite scores (`none` = `np.inf`). -/
def omin : Option ℚ → Option ℚ → Option ℚ
  | none, b => b
  | some a, none => some a
  | some a, some b => some (min a b)

/-- Minimum of all personal-best scores of the swarm (`none` = `np.inf`,
the initial value of every personal best). -/
def bmin (l : List (Option (PSet × ℚ))) : Option ℚ :=
  l.foldr (fun b acc => omin (b.map Prod.snd) acc) none

/-- The swarm invariant claimed by the spec: the global-best score is the
minimum of all personal-best scores. -/
def globalInv (s : SwarmState) : Prop :=
  s.globalBest.map Prod.snd = bmin s.bests

/-- Order on possibly-infinite scores (`none` = `np.inf`). -/
def oLE : Option ℚ → Option ℚ → Prop
  | _, none => True
  | none, some _ => False
  | some a, some b => a ≤ b

section BminLemmas

lemma oLE_refl (a : Option ℚ) : oLE a a := by
  cases a <;> simp [oLE]

lemma omin_left_comm (a b c : Option ℚ) :
    omin a (omin b c) = omin b (omin a c) := by
  cases a <;> cases b <;> cases c <;> simp [omin, min_left_comm, min_comm]

/-- A score that beats `b` absorbs `b` in a minimum. -/
lemma omin_absorb {q : ℚ} {b : Option ℚ} (h : scoreLtOpt q b = true)
    (X : Option ℚ) : omin (some q) (omin b X) = omin (some q) X := by
  cases b with
  | none => simp [omin]
  | some bv =>
    have hq : q < bv := by simpa [scoreLtOpt] using h
    cases X with
    | none => simp [omin, min_eq_left hq.le]
    | some xv => simp [omin, ← min_assoc, min_eq_left hq.le]

/-- Replacing a personal best by a strictly better score makes the swarm
minimum the minimum of the new score and the old swarm minimum. -/
lemma bmin_set (l : List (Option (PSet × ℚ))) (p : ℕ) (ps : PSet) (q : ℚ)
    (hp : p < l.length)
    (h : scoreLtOpt q ((l.getD p none).map Prod.snd) = true) :
    bmin (l.set p (some (ps, q))) = omin (some q) (bmin l) := by
  induction l generalizing p with
  | nil => simp at hp
  | cons b t ih =>
    cases p with
    | zero =>
      have hb : scoreLtOpt q (b.map Prod.snd) = true := by
        simpa [List.getD] using h
      simp only [List.set, bmin, List.foldr]
      rw [show Option.map Prod.snd (some (ps, q)) = some q from rfl, omin_absorb hb]
    | succ p =>
      have hp' : p < t.length := by simpa using hp
      have h' : scoreLtOpt q ((t.getD p none).map Prod.snd) = true := by
        simpa [List.getD] using h
      simp only [List.set, bmin, List.foldr]
      have := ih p hp' h'
      simp only [bmin] at this
      rw [this, omin_left_comm]

/-- `bestsUpdate` preserves the global-best invariant and never increases
the global-best score. -/
lemma bestsUpdate_globalInv (s : SwarmState) (p : ℕ) (ps : PSet) (q : ℚ)
    (hp : p < s.bests.length) (hinv : globalInv s) :
    globalInv (bestsUpdate s p ps q) ∧
    oLE ((bestsUpdate s p ps q).globalBest.map Prod.snd)
      (s.globalBest.map Prod.snd) := by
  unfold bestsUpdate
  by_cases hlt : scoreLtOpt q ((s.bests.getD p none).map Prod.snd) = true
  · rw [if_pos hlt]
    have hset := bmin_set s.bests p ps q hp hlt
    by_cases hg : scoreLtOpt q (s.globalBest.map Prod.snd) = true
    · rw [if_pos hg]
      constructor
      · show some q = bmin (s.bests.set p (some (ps, q)))
        rw [hset, ← hinv]
        cases hgb : s.globalBest.map Prod.snd with
        | none => simp [omin]
        | some gv =>
          have : q < gv := by simpa [scoreLtOpt, hgb] using hg
          simp [omin, min_eq_left this.le]
      · show oLE (some q) (s.globalBest.map Prod.snd)
        cases hgb : s.globalBest.map Prod.snd with
        | none => simp [oLE]
        | some gv =>
          have : q < gv := by simpa [scoreLtOpt, hgb] using hg
          simpa [oLE] using this.le
    · rw [if_neg hg]
      constructor
      · show s.globalBest.map Prod.snd = bmin (s.bests.set p (some (ps, q)))
        rw [hset, ← hinv]
        cases hgb : s.globalBest.map Prod.snd with
        | none =>
          rw [hgb] at hg
          simp [scoreLtOpt] at hg
        | some gv =>
          have : gv ≤ q := by
            have := hg
            simp only [scoreLtOpt, hgb, decide_eq_true_eq] at this
            exact le_of_not_lt this
          simp [omin, min_eq_right this]
      · exact oLE_refl _
  · rw [if_neg hlt]
    exact ⟨hinv, oLE_refl _⟩

/-- The initial bests list (all `none`) has infinite minimum. -/
lemma bmin_replicate_none (n : ℕ) :
    bmin (List.replicate n (none : Option (PSet × ℚ))) = none := by
  induction n with
  | zero => rfl
  | succ n ih => simp only [List.replicate, bmin, List.foldr] at ih ⊢; rw [ih]; rfl

/-- `dictLookup` finds nothing exactly when `dictPop` finds nothing. -/
lemma dictPop_eq_none_of_lookup (m : List (PSet × ℕ)) (k : PSet)
    (h : dictLookup m k = none) : dictPop m k = none := by
  induction m with
  | nil => rfl
  | cons e rest ih =>
    by_cases he : e.1 = k
    · simp [dictLookup, he] at h
    · simp only [dictLookup, if_neg he] at h
      simp [dictPop, if_neg he, ih h]

end BminLemmas

section UpdateLemmas

/-- Reading back the element just written into a list. -/
lemma list_getD_set_self {α : Type} (l : List α) (p : ℕ) (x d : α)
    (hp : p < l.length) : (l.set p x).getD p d = x := by
  induction l generalizing p with
  | nil => simp at hp
  | cons a t ih =>
    cases p with
    | zero => rfl
    | succ p => exact ih p (by simpa using hp)

/-- Element of a tabulated list. -/
lemma getD_map_range {α : Type} (f : ℕ → α) (n j : ℕ) (d : α) (h : j < n) :
    ((List.range n).map f).getD j d = f j := by
  rw [List.getD_eq_getElem?_getD, List.getElem?_map, List.getElem?_range h]
  rfl

/-- Looking up the key just inserted finds the inserted value. -/
lemma dictLookup_insert_self (m : List (PSet × ℕ)) (k : PSet) (v : ℕ) :
    dictLookup (dictInsert m k v) k = some v := by
  induction m with
  | nil => simp [dictInsert, dictLookup]
  | cons e rest ih =>
    by_cases he : e.1 = k
    · simp [dictInsert, dictLookup, he]
    · simp [dictInsert, dictLookup, he, ih]

/-- Inserting one key leaves every other key's lookup unchanged. -/
lemma dictLookup_insert_ne (m : List (PSet × ℕ)) (k : PSet) (v : ℕ)
    (k' : PSet) (h : k' ≠ k) :
    dictLookup (dictInsert m k v) k' = dictLookup m k' := by
  induction m with
  | nil => simp [dictInsert, dictLookup, Ne.symm h]
  | cons e rest ih =>
    by_cases he : e.1 = k
    · simp [dictInsert, dictLookup, he, Ne.symm h]
    · simp [dictInsert, dictLookup, he, ih]

/-- The default (negative-rejecting) `PSet` constructor fails on any list
holding a negative value — unlike the `allow_negative=True` construction,
which accepts every list (`mkChecked_true_eq_mkAllowNegative`). -/
lemma mkChecked_false_of_neg (vals : List ℚ) (x : ℚ) (hx : x ∈ vals)
    (hneg : x < 0) : PSet.mkChecked false vals = none := by
  unfold PSet.mkChecked
  have hall : vals.all (fun y => decide (0 ≤ y)) = false := by
    rw [List.all_eq_false]
    exact ⟨x, hx, by simpa using not_le.mpr hneg⟩
  simp [hall]

/-- At a pseudoflight boundary, `nv` is incremented exactly when the
unproductive test passes, and the last-best snapshot is refreshed from the
current global best. -/
lemma postPseudoflight_boundary (P : PSOParams) (s : SwarmState)
    (hb : (s.numEvals + 1) % P.populationSize = 0) :
    (postPseudoflight P s).nv =
      (if unproductiveCheck P s.lastBest (s.globalBest.map Prod.snd)
        then s.nv + 1 else s.nv) ∧
    (postPseudoflight P s).lastBest = s.globalBest.map Prod.snd := by
  unfold postPseudoflight pseudoflightUpdate
  rw [if_pos hb]
  exact ⟨rfl, rfl⟩

/-- Away from a pseudoflight boundary, `nv` and the last-best snapshot are
untouched. -/
lemma postPseudoflight_not_boundary (P : PSOParams) (s : SwarmState)
    (hb : ¬ (s.numEvals + 1) % P.populationSize = 0) :
    (postPseudoflight P s).nv = s.nv ∧
    (postPseudoflight P s).lastBest = s.lastBest := by
  unfold postPseudoflight pseudoflightUpdate
  rw [if_neg hb]
  exact ⟨rfl, rfl⟩

end UpdateLemmas

section StartRunLemmas

/-- Closed form of the `start_run` loop when every sampled position value
is nonnegative (as every `uniform(0, 4)` draw is): the loop appends one
particle per index and registers each position. -/
lemma startRunLoop_ok (P : PSOParams) (pd vd : ℕ → ℕ → ℚ) (idxs : List ℕ)
    (hpos : ∀ i ∈ idxs, ∀ x ∈ (initPSet P pd i).vals, 0 ≤ x) :
    ∀ s : SwarmState,
      startRunLoop P pd vd idxs s = .ok
        { s with
          swarm := s.swarm ++ idxs.map (fun i => (initPSet P pd i, initVel P vd i)),
          psetMap := idxs.foldl (fun m i => dictInsert m (initPSet P pd i) i) s.psetMap } := by
  induction idxs with
  | nil =>
    intro s
    simp [startRunLoop]
  | cons i rest ih =>
    intro s
    have hmk : PSet.mkChecked false (initPSet P pd i).vals = some (initPSet P pd i) := by
      unfold PSet.mkChecked
      have hall : (initPSet P pd i).vals.all (fun x => decide (0 ≤ x)) = true := by
        rw [List.all_eq_true]
        intro x hx
        simpa using hpos i (by simp) x hx
      simp [hall]
    unfold startRunLoop
    simp only [hmk]
    rw [ih (fun j hj x hx => hpos j (List.mem_cons_of_mem _ hj) x hx)]
    simp [List.append_assoc]

/-- Closed form of `start_run` from the freshly initialized state. -/
lemma startRun_ok (P : PSOParams) (pd vd : ℕ → ℕ → ℚ)
    (hpos : ∀ i ∈ List.range P.populationSize, ∀ x ∈ (initPSet P pd i).vals, 0 ≤ x) :
    startRun P pd vd (initState P) = .ok
      ({ initState P with
          swarm := (List.range P.populationSize).map
            (fun i => (initPSet P pd i, initVel P vd i)),
          psetMap := (List.range P.populationSize).foldl
            (fun m i => dictInsert m (initPSet P pd i) i) [] },
        (List.range P.populationSize).map (fun i => initPSet P pd i)) := by
  unfold startRun
  rw [startRunLoop_ok P pd vd _ hpos (initState P)]
  simp [initState, Except.map, List.map_map, Function.comp]

/-- Folding key insertions whose keys all differ from `K` does not change
the lookup of `K`. -/
lemma foldl_insert_lookup_notin (key : ℕ → PSet) (idxs : List ℕ) (K : PSet)
    (h : ∀ j ∈ idxs, key j ≠ K) :
    ∀ m0 : List (PSet × ℕ),
      dictLookup (idxs.foldl (fun m i => dictInsert m (key i) i) m0) K =
        dictLookup m0 K := by
  induction idxs with
  | nil => intro m0; rfl
  | cons i rest ih =>
    intro m0
    simp only [List.foldl]
    rw [ih (fun j hj => h j (List.mem_cons_of_mem _ hj))]
    exact dictLookup_insert_ne _ _ _ _ (Ne.symm (h i (by simp)))

/-- After folding insertions of pairwise-distinct keys, each key looks up
its own index. -/
lemma foldl_insert_lookup_self (key : ℕ → PSet) (idxs : List ℕ) (i : ℕ)
    (hmem : i ∈ idxs) (hnd : idxs.Nodup)
    (hinj : ∀ j₁ ∈ idxs, ∀ j₂ ∈ idxs, key j₁ = key j₂ → j₁ = j₂) :
    ∀ m0 : List (PSet × ℕ),
      dictLookup (idxs.foldl (fun m i => dictInsert m (key i) i) m0) (key i) =
        some i := by
  induction idxs with
  | nil => simp at hmem
  | cons a rest ih =>
    intro m0
    simp only [List.foldl]
    rcases List.mem_cons.mp hmem with rfl | hmem'
    · rw [foldl_insert_lookup_notin key rest (key i) ?_ _]
      · exact dictLookup_insert_self _ _ _
      · intro j hj hkey
        have hji : j = i :=
          hinj j (List.mem_cons_of_mem _ hj) i (by simp) hkey
        subst hji
        exact absurd hj (List.nodup_cons.mp hnd).1
    · exact ih hmem' (List.nodup_cons.mp hnd).2
        (fun j₁ hj₁ j₂ hj₂ => hinj j₁ (List.mem_cons_of_mem _ hj₁) j₂
          (List.mem_cons_of_mem _ hj₂)) _

end StartRunLemmas

/-- Example parameters: 2 particles, 3 iterations, one variable. -/
def exP : PSOParams := ⟨1, 1, 2, 3, 1, 1, 30, none, 0, 0, 1⟩

/-- Example parameters: 2 particles, 1 iteration, one variable. -/
def exP2 : PSOParams := ⟨1, 1, 2, 1, 1, 1, 30, none, 0, 0, 1⟩

/-- Example swarm state, as after a `start_run` of `exP` with positions 0
and 1 and zero velocities. -/
def exS : SwarmState :=
  ⟨[(⟨[0]⟩, [0]), (⟨[1]⟩, [0])], [(⟨[0]⟩, 0), (⟨[1]⟩, 1)], [none, none],
    none, none, 0, 0⟩

/-- Example swarm state with one evaluation already counted. -/
def exS1 : SwarmState :=
  ⟨[(⟨[0]⟩, [0]), (⟨[1]⟩, [0])], [(⟨[0]⟩, 0), (⟨[1]⟩, 1)], [none, none],
    none, none, 0, 1⟩

/-- Example result for the particle at position 0, scoring 5. -/
def exRes : Result := ⟨⟨[0]⟩, 5⟩

/-- Example result whose PSet is registered in no map. -/
def exResBad : Result := ⟨⟨[7]⟩, 5⟩

/-- Example random stream: all draws zero. -/
def exU : ℕ → ℚ := fun _ => 0

/-- The state `got_result` produces from `exS` and `exRes`. -/
def exS' : SwarmState :=
  ⟨[(⟨[0]⟩, [0]), (⟨[1]⟩, [0])], [(⟨[1]⟩, 1), (⟨[0]⟩, 0)],
    [some (⟨[0]⟩, 5), none], some (⟨[0]⟩, 5), none, 0, 1⟩

/-- The state `got_result` produces from `exS1` and `exRes`. -/
def exS2' : SwarmState :=
  ⟨[(⟨[0]⟩, [0]), (⟨[1]⟩, [0])], [(⟨[1]⟩, 1), (⟨[0]⟩, 0)],
    [some (⟨[0]⟩, 5), none], some (⟨[0]⟩, 5), none, 0, 2⟩

/-- Parameters with `absolute_tol = 1` and `relative_tol = 0`. -/
def exPcx : PSOParams := ⟨1, 1, 2, 3, 1, 1, 30, none, 1, 0, 1⟩

/-- State one evaluation before a pseudoflight boundary, with the global
best having improved since the last boundary by exactly `absolute_tol`:
from 10 down to 9. -/
def exScx : SwarmState :=
  ⟨[(⟨[2]⟩, [0]), (⟨[3]⟩, [0])], [(⟨[2]⟩, 0), (⟨[3]⟩, 1)],
    [some (⟨[0]⟩, 9), none], some (⟨[0]⟩, 9), some 10, 0, 1⟩

/-- Result closing the pseudoflight of `exScx`. -/
def exRcx : Result := ⟨⟨[2]⟩, 9⟩

/-- Example state whose particle 0 has velocity -1, so that its next
position update goes negative. -/
def exS6 : SwarmState :=
  ⟨[(⟨[0]⟩, [-1]), (⟨[1]⟩, [0])], [(⟨[0]⟩, 0), (⟨[1]⟩, 1)], [none, none],
    none, none, 0, 0⟩

/-- The state `got_result` produces from `exS6` and `exRes`: particle 0
moved to the negative position -1. -/
def exS6' : SwarmState :=
  ⟨[(⟨[-1]⟩, [-1]), (⟨[1]⟩, [0])], [(⟨[1]⟩, 1), (⟨[-1]⟩, 0)],
    [some (⟨[0]⟩, 5), none], some (⟨[0]⟩, 5), none, 0, 1⟩

/-- A position-draw stream on which two particles collide: every draw
is 1. -/
def cpd : ℕ → ℕ → ℚ := fun _ _ => 1

/-- A velocity-draw stream of zeros. -/
def cvd : ℕ → ℕ → ℚ := fun _ _ => 0

/-- A position-draw stream giving particle `i` the position value `i`. -/
def wpd : ℕ → ℕ → ℚ := fun i _ => (i : ℚ)

section ConcreteEvaluation

attribute [local semireducible] Rat.add Rat.mul Rat.inv Rat.sub

/-- C1: the swarm's global-best score always equals the minimum of all
personal-best scores (each starting at +infinity): the invariant holds in
the initial state and is preserved by every successful `got_result` call,
across which the global-best score also never increases — in particular it
is monotonically non-increasing in the number of results processed,
regardless of arrival order. -/
theorem pso_global_best_invariant (P : PSOParams) (obj : ℚ → ℚ)
    (s : SwarmState) (res : Result) (u1 u2 : ℕ → ℚ) (s' : SwarmState)
    (r : Response) (hinv : globalInv s)
    (h : gotResult P obj s res u1 u2 = .ok (s', r)) :
    globalInv (initState P) ∧ globalInv s' ∧
    oLE (s'.globalBest.map Prod.snd) (s.globalBest.map Prod.snd) := by
  refine ⟨?_, ?_⟩
  · show (initState P).globalBest.map Prod.snd = bmin (initState P).bests
    simp [initState, bmin_replicate_none]
  · obtain ⟨np, hc, -, -⟩ := gotResult_ok_elim h
    obtain ⟨p, m', pb, gb, hpop, hsw, hbl, hpb, hgb, hnp, h1, h2, hbests,
      hglobal, h5, h6, h7⟩ := gotResultCore_ok_elim hc
    set t : SwarmState := { postPseudoflight P s with psetMap := m' } with ht
    have htb : t.bests = s.bests := by simp [ht]
    have htg : t.globalBest = s.globalBest := by simp [ht]
    have htinv : globalInv t := by
      show t.globalBest.map Prod.snd = bmin t.bests
      rw [htb, htg]
      exact hinv
    have hplen : p < t.bests.length := by rw [htb]; exact hbl
    have hmain := bestsUpdate_globalInv t p res.pset (obj res.simdata) hplen htinv
    have hpost : postBests P obj s res p m' = bestsUpdate t p res.pset (obj res.simdata) := rfl
    constructor
    · show s'.globalBest.map Prod.snd = bmin s'.bests
      rw [hbests, hglobal, hpost]
      exact hmain.1
    · rw [hglobal, hpost]
      have := hmain.2
      rw [htg] at this
      exact this

/-- Witness for `pso_global_best_invariant` on a concrete call. -/
theorem pso_global_best_invariant_witness :
    globalInv (initState exP) ∧ globalInv exS' ∧
    oLE (exS'.globalBest.map Prod.snd) (exS.globalBest.map Prod.snd) :=
  pso_global_best_invariant exP id exS exRes exU exU exS'
    (.psets [⟨[0]⟩]) (by rfl) (by decide)

/-- C2: every successful `got_result` call increments the total-evaluations
counter by exactly 1, and answers `'STOP'` exactly when the incremented
counter has reached `max_evals = population_size * max_iterations` or `nv`
has reached `adaptive_n_stop` — never on any earlier call; in particular
with `population_size = 2` and `max_iterations = 1` the second processed
result always yields `'STOP'`, regardless of scores. -/
theorem pso_stop_criterion (P : PSOParams) (obj : ℚ → ℚ) (s : SwarmState)
    (res : Result) (u1 u2 : ℕ → ℚ) (s' : SwarmState) (r : Response)
    (h : gotResult P obj s res u1 u2 = .ok (s', r)) :
    s'.numEvals = s.numEvals + 1 ∧
    (r = .stop ↔
      (s'.numEvals ≥ P.maxEvals ∨ nvStopReached s'.nv P.nStop = true)) ∧
    (P.populationSize = 2 → P.maxIterations = 1 → s.numEvals = 1 →
      r = .stop) := by
  obtain ⟨np, hc, -, hiff⟩ := gotResult_ok_elim h
  obtain ⟨p, m', pb, gb, -, -, -, -, -, -, -, -, -, -, -, -, hnum⟩ :=
    gotResultCore_ok_elim hc
  refine ⟨hnum, hiff, ?_⟩
  intro hpop hit hevals
  apply hiff.mpr
  left
  rw [hnum, hevals]
  unfold PSOParams.maxEvals
  rw [hpop, hit]

/-- Witness for `pso_stop_criterion`: with `population_size = 2` and
`max_iterations = 1` the second processed result yields `'STOP'`. -/
theorem pso_stop_criterion_witness :
    exS2'.numEvals = exS1.numEvals + 1 ∧
    (Response.stop = Response.stop ↔
      (exS2'.numEvals ≥ exP2.maxEvals ∨ nvStopReached exS2'.nv exP2.nStop = true)) ∧
    (exP2.populationSize = 2 → exP2.maxIterations = 1 → exS1.numEvals = 1 →
      Response.stop = Response.stop) :=
  pso_stop_criterion exP2 id exS1 exRes exU exU exS2' .stop (by decide)

/-- C7: a `Result` whose PSet is not present in the position-to-particle
map makes `got_result` fail with the `KeyError` of `dict.pop` (line 271)
instead of silently ignoring the result: no updated state is produced. -/
theorem pso_unknown_pset_fails (P : PSOParams) (obj : ℚ → ℚ) (s : SwarmState)
    (res : Result) (u1 u2 : ℕ → ℚ)
    (h : dictLookup s.psetMap res.pset = none) :
    gotResult P obj s res u1 u2 = .error .keyError :=
  gotResult_error (gotResultCore_keyError (dictPop_eq_none_of_lookup _ _ h))

/-- Witness for `pso_unknown_pset_fails` on a concrete unknown PSet. -/
theorem pso_unknown_pset_fails_witness :
    gotResult exP id exS exResBad exU exU = .error .keyError :=
  pso_unknown_pset_fails exP id exS exResBad exU exU (by rfl)

/-- C3 (amended): on a `got_result` call whose incremented evaluation
counter is a multiple of `population_size`, `nv` is incremented if and only
if the change of the global best since the previous pseudoflight boundary
is strictly less than `absolute_tol + relative_tol * previous_best`; the
previous-pseudoflight best is then always set to the current global best;
because it is initialized to +infinity (`none`), a boundary with infinite
previous best never increments `nv`; away from a boundary neither changes.
Amendment: when the global best improves by exactly `absolute_tol` (with
`relative_tol * previous_best = 0`), the strict less-than fails, so the
pseudoflight counts as productive and `nv` does NOT increment (the spec's
scenario claims the opposite). -/
theorem pso_pseudoflight_nv (P : PSOParams) (obj : ℚ → ℚ) (s : SwarmState)
    (res : Result) (u1 u2 : ℕ → ℚ) (s' : SwarmState) (r : Response)
    (h : gotResult P obj s res u1 u2 = .ok (s', r)) :
    ((s.numEvals + 1) % P.populationSize = 0 →
      (s.lastBest = none → s'.nv = s.nv) ∧
      (∀ lb gb, s.lastBest = some lb → s.globalBest.map Prod.snd = some gb →
        (s'.nv = s.nv + 1 ↔ |lb - gb| < P.absTol + P.relTol * lb)) ∧
      s'.lastBest = s.globalBest.map Prod.snd) ∧
    (¬ (s.numEvals + 1) % P.populationSize = 0 →
      s'.nv = s.nv ∧ s'.lastBest = s.lastBest) ∧
    (∀ lb, (s.numEvals + 1) % P.populationSize = 0 → s.lastBest = some lb →
      s.globalBest.map Prod.snd = some (lb - P.absTol) → P.relTol = 0 →
      s'.nv = s.nv) := by
  obtain ⟨np, hc, -, -⟩ := gotResult_ok_elim h
  obtain ⟨p, m', pb, gb', hpop, -, -, -, -, -, -, -, -, -, hlastB, hnv, -⟩ :=
    gotResultCore_ok_elim hc
  refine ⟨?_, ?_, ?_⟩
  · intro hb
    obtain ⟨hnvb, hlbb⟩ := postPseudoflight_boundary P s hb
    refine ⟨?_, ?_, ?_⟩
    · intro hnone
      rw [hnv, hnvb, hnone]
      simp [unproductiveCheck]
    · intro lb gb hlb hgb2
      have hch : unproductiveCheck P s.lastBest (s.globalBest.map Prod.snd)
          = decide (|lb - gb| < P.absTol + P.relTol * lb) := by
        rw [hlb, hgb2]
        simp [unproductiveCheck]
      rw [hnv, hnvb, hch]
      by_cases hcond : |lb - gb| < P.absTol + P.relTol * lb
      · simp [hcond]
      · simp [hcond]
    · rw [hlastB, hlbb]
  · intro hb
    obtain ⟨hnvb, hlbb⟩ := postPseudoflight_not_boundary P s hb
    exact ⟨by rw [hnv, hnvb], by rw [hlastB, hlbb]⟩
  · intro lb hb hlb hgb2 hrel
    obtain ⟨hnvb, -⟩ := postPseudoflight_boundary P s hb
    have heq : lb - (lb - P.absTol) = P.absTol := by ring
    have hno : ¬ (|lb - (lb - P.absTol)| < P.absTol + P.relTol * lb) := by
      rw [heq, hrel, zero_mul, add_zero]
      exact not_lt.mpr (le_abs_self _)
    have hch : unproductiveCheck P s.lastBest (s.globalBest.map Prod.snd) = false := by
      rw [hlb, hgb2]
      simp only [unproductiveCheck]
      exact decide_eq_false hno
    rw [hnv, hnvb, hch]
    simp

/-- Counterexample to C3 as stated: at a pseudoflight boundary where the
global best improved by exactly `absolute_tol = 1` (from 10 to 9, with
`relative_tol = 0`), `nv` is NOT incremented — the pseudoflight counts as
productive, contrary to the spec's scenario. -/
theorem pso_pseudoflight_exact_tol_cx :
    (exScx.numEvals + 1) % exPcx.populationSize = 0 ∧
    exScx.lastBest = some 10 ∧
    exScx.globalBest.map Prod.snd = some 9 ∧
    exPcx.absTol = 1 ∧ exPcx.relTol = 0 ∧ (10 : ℚ) - 9 = exPcx.absTol ∧
    (gotResult exPcx id exScx exRcx exU exU).map (fun x => x.1.nv) =
      .ok exScx.nv ∧
    ¬ (gotResult exPcx id exScx exRcx exU exU).map (fun x => x.1.nv) =
      .ok (exScx.nv + 1) := by
  decide

/-- Witness for `pso_pseudoflight_nv` on the concrete boundary call of
`exScx`. -/
theorem pso_pseudoflight_nv_witness :
    (((exScx.numEvals + 1) % exPcx.populationSize = 0 →
      (exScx.lastBest = none → SwarmState.nv
        ⟨[(⟨[2]⟩, [0]), (⟨[3]⟩, [0])], [(⟨[3]⟩, 1), (⟨[2]⟩, 0)],
          [some (⟨[0]⟩, 9), none], some (⟨[0]⟩, 9), some 9, 0, 2⟩ = exScx.nv) ∧
      (∀ lb gb, exScx.lastBest = some lb →
        exScx.globalBest.map Prod.snd = some gb →
        (SwarmState.nv
          ⟨[(⟨[2]⟩, [0]), (⟨[3]⟩, [0])], [(⟨[3]⟩, 1), (⟨[2]⟩, 0)],
            [some (⟨[0]⟩, 9), none], some (⟨[0]⟩, 9), some 9, 0, 2⟩ = exScx.nv + 1 ↔
          |lb - gb| < exPcx.absTol + exPcx.relTol * lb)) ∧
      SwarmState.lastBest
        ⟨[(⟨[2]⟩, [0]), (⟨[3]⟩, [0])], [(⟨[3]⟩, 1), (⟨[2]⟩, 0)],
          [some (⟨[0]⟩, 9), none], some (⟨[0]⟩, 9), some 9, 0, 2⟩ =
        exScx.globalBest.map Prod.snd) ∧
    (¬ (exScx.numEvals + 1) % exPcx.populationSize = 0 →
      SwarmState.nv
        ⟨[(⟨[2]⟩, [0]), (⟨[3]⟩, [0])], [(⟨[3]⟩, 1), (⟨[2]⟩, 0)],
          [some (⟨[0]⟩, 9), none], some (⟨[0]⟩, 9), some 9, 0, 2⟩ = exScx.nv ∧
      SwarmState.lastBest
        ⟨[(⟨[2]⟩, [0]), (⟨[3]⟩, [0])], [(⟨[3]⟩, 1), (⟨[2]⟩, 0)],
          [some (⟨[0]⟩, 9), none], some (⟨[0]⟩, 9), some 9, 0, 2⟩ =
        exScx.lastBest) ∧
    (∀ lb, (exScx.numEvals + 1) % exPcx.populationSize = 0 →
      exScx.lastBest = some lb →
      exScx.globalBest.map Prod.snd = some (lb - exPcx.absTol) →
      exPcx.relTol = 0 →
      SwarmState.nv
        ⟨[(⟨[2]⟩, [0]), (⟨[3]⟩, [0])], [(⟨[3]⟩, 1), (⟨[2]⟩, 0)],
          [some (⟨[0]⟩, 9), none], some (⟨[0]⟩, 9), some 9, 0, 2⟩ = exScx.nv)) :=
  pso_pseudoflight_nv exPcx id exScx exRcx exU exU
    ⟨[(⟨[2]⟩, [0]), (⟨[3]⟩, [0])], [(⟨[3]⟩, 1), (⟨[2]⟩, 0)],
      [some (⟨[0]⟩, 9), none], some (⟨[0]⟩, 9), some 9, 0, 2⟩
    (.psets [⟨[2]⟩]) (by decide)

/-- C6: in `got_result` the velocity is recomputed first, per variable, as
`v' = w*v + c1*U1*(personal_best - position) + c2*U2*(global_best -
position)` with independent uniform draws per variable, and the new
position equals the old position plus this freshly updated velocity; the
new position PSet is constructed permitting negative values, while the
default construction used by the initial sampling rejects them. -/
theorem pso_velocity_position_update (P : PSOParams) (obj : ℚ → ℚ)
    (s : SwarmState) (res : Result) (u1 u2 : ℕ → ℚ) (s' : SwarmState)
    (r : Response) (h : gotResult P obj s res u1 u2 = .ok (s', r)) :
    (∃ p m' pb gb,
      dictPop s.psetMap res.pset = some (p, m') ∧
      (postBests P obj s res p m').bests.getD p none = some pb ∧
      (postBests P obj s res p m').globalBest = some gb ∧
      ∃ newVel newPos,
        s'.swarm.getD p (⟨[]⟩, []) = (PSet.mkAllowNegative newPos, newVel) ∧
        newVel.length = P.varCount ∧ newPos.length = P.varCount ∧
        (∀ j, j < P.varCount →
          newVel.getD j 0 =
            inertiaWeight P.w0 P.wf P.nmax (postPseudoflight P s).nv *
                (s.swarm.getD p (⟨[]⟩, [])).2.getD j 0
              + P.c1 * u1 j *
                (pb.1.vals.getD j 0 - (s.swarm.getD p (⟨[]⟩, [])).1.vals.getD j 0)
              + P.c2 * u2 j *
                (gb.1.vals.getD j 0 - (s.swarm.getD p (⟨[]⟩, [])).1.vals.getD j 0)) ∧
        (∀ j, j < P.varCount →
          newPos.getD j 0 =
            (s.swarm.getD p (⟨[]⟩, [])).1.vals.getD j 0 + newVel.getD j 0) ∧
        PSet.mkChecked true newPos = some (PSet.mkAllowNegative newPos)) ∧
    (∀ vals : List ℚ, (∃ x ∈ vals, x < 0) → PSet.mkChecked false vals = none) := by
  obtain ⟨np, hc, -, -⟩ := gotResult_ok_elim h
  obtain ⟨p, m', pb, gb, hpop, hsw, -, hpb, hgb, hnp, h1, -, -, -, -, -, -⟩ :=
    gotResultCore_ok_elim hc
  constructor
  · refine ⟨p, m', pb, gb, hpop, hpb, hgb,
      updatedVelocity P (inertiaWeight P.w0 P.wf P.nmax (postPseudoflight P s).nv)
        (s.swarm.getD p (⟨[]⟩, [])).1.vals (s.swarm.getD p (⟨[]⟩, [])).2
        pb.1.vals gb.1.vals u1 u2,
      newPositionVals P (s.swarm.getD p (⟨[]⟩, [])).1.vals
        (updatedVelocity P (inertiaWeight P.w0 P.wf P.nmax (postPseudoflight P s).nv)
          (s.swarm.getD p (⟨[]⟩, [])).1.vals (s.swarm.getD p (⟨[]⟩, [])).2
          pb.1.vals gb.1.vals u1 u2),
      ?_, ?_, ?_, ?_, ?_, rfl⟩
    · rw [h1, ← hnp]
      exact list_getD_set_self _ _ _ _ hsw
    · simp [updatedVelocity]
    · simp [newPositionVals]
    · intro j hj
      unfold updatedVelocity
      rw [getD_map_range _ _ _ _ hj]
    · intro j hj
      unfold newPositionVals
      rw [getD_map_range _ _ _ _ hj]
  · intro vals hex
    obtain ⟨x, hx, hneg⟩ := hex
    exact mkChecked_false_of_neg vals x hx hneg

/-- Witness for `pso_velocity_position_update` on the concrete call whose
new position is negative. -/
theorem pso_velocity_position_update_witness :
    (∃ p m' pb gb,
      dictPop exS6.psetMap exRes.pset = some (p, m') ∧
      (postBests exP id exS6 exRes p m').bests.getD p none = some pb ∧
      (postBests exP id exS6 exRes p m').globalBest = some gb ∧
      ∃ newVel newPos,
        exS6'.swarm.getD p (⟨[]⟩, []) = (PSet.mkAllowNegative newPos, newVel) ∧
        newVel.length = exP.varCount ∧ newPos.length = exP.varCount ∧
        (∀ j, j < exP.varCount →
          newVel.getD j 0 =
            inertiaWeight exP.w0 exP.wf exP.nmax (postPseudoflight exP exS6).nv *
                (exS6.swarm.getD p (⟨[]⟩, [])).2.getD j 0
              + exP.c1 * exU j *
                (pb.1.vals.getD j 0 - (exS6.swarm.getD p (⟨[]⟩, [])).1.vals.getD j 0)
              + exP.c2 * exU j *
                (gb.1.vals.getD j 0 - (exS6.swarm.getD p (⟨[]⟩, [])).1.vals.getD j 0)) ∧
        (∀ j, j < exP.varCount →
          newPos.getD j 0 =
            (exS6.swarm.getD p (⟨[]⟩, [])).1.vals.getD j 0 + newVel.getD j 0) ∧
        PSet.mkChecked true newPos = some (PSet.mkAllowNegative newPos)) ∧
    (∀ vals : List ℚ, (∃ x ∈ vals, x < 0) → PSet.mkChecked false vals = none) :=
  pso_velocity_position_update exP id exS6 exRes exU exU exS6'
    (.psets [⟨[-1]⟩]) (by decide)

/-- C9: on the `got_result` call that answers `'STOP'`, the swarm state has
nevertheless been fully updated: the evaluation counter is incremented, the
stopping particle's freshly recomputed (never-to-be-scheduled) position is
stored in the swarm list and registered under its particle index in the
position-to-index map, and the bests, `nv` and last-best bookkeeping all
hold their updated values. -/
theorem pso_stop_state_updated (P : PSOParams) (obj : ℚ → ℚ) (s : SwarmState)
    (res : Result) (u1 u2 : ℕ → ℚ) (s' : SwarmState)
    (h : gotResult P obj s res u1 u2 = .ok (s', .stop)) :
    s'.numEvals = s.numEvals + 1 ∧
    ∃ p m' np,
      dictPop s.psetMap res.pset = some (p, m') ∧
      p < s'.swarm.length ∧
      (s'.swarm.getD p (⟨[]⟩, [])).1 = np ∧
      dictLookup s'.psetMap np = some p ∧
      s'.bests = (postBests P obj s res p m').bests ∧
      s'.globalBest = (postBests P obj s res p m').globalBest ∧
      s'.lastBest = (postPseudoflight P s).lastBest ∧
      s'.nv = (postPseudoflight P s).nv := by
  obtain ⟨np, hc, -, -⟩ := gotResult_ok_elim h
  obtain ⟨p, m', pb, gb, hpop, hsw, -, -, -, hnp, h1, h2, hbests, hglobal,
    hlastB, hnv, hnum⟩ := gotResultCore_ok_elim hc
  refine ⟨hnum, p, m', np, hpop, ?_, ?_, ?_, hbests, hglobal, hlastB, hnv⟩
  · rw [h1]
    simpa using hsw
  · rw [h1, list_getD_set_self _ _ _ _ hsw]
  · rw [h2]
    exact dictLookup_insert_self m' np p

/-- Witness for `pso_stop_state_updated` on the concrete stopping call. -/
theorem pso_stop_state_updated_witness :
    exS2'.numEvals = exS1.numEvals + 1 ∧
    ∃ p m' np,
      dictPop exS1.psetMap exRes.pset = some (p, m') ∧
      p < exS2'.swarm.length ∧
      (exS2'.swarm.getD p (⟨[]⟩, [])).1 = np ∧
      dictLookup exS2'.psetMap np = some p ∧
      exS2'.bests = (postBests exP2 id exS1 exRes p m').bests ∧
      exS2'.globalBest = (postBests exP2 id exS1 exRes p m').globalBest ∧
      exS2'.lastBest = (postPseudoflight exP2 exS1).lastBest ∧
      exS2'.nv = (postPseudoflight exP2 exS1).nv :=
  pso_stop_state_updated exP2 id exS1 exRes exU exU exS2' (by decide)

/-- C5 (amended): for every valid configuration, `start_run` returns
exactly `population_size` PSets, each containing every configured
variable, whose values are exactly the per-particle uniform draws (in
`[0, 4]` for positions, `[-1, 1]` for velocities, given that the draws
are); when the sampled positions are pairwise distinct, the returned PSets
are pairwise distinct and each is registered in the position-to-index map
under its own particle index.  (Distinctness and per-index registration
can fail when draws collide; see `pso_start_run_distinct_cx`.) -/
theorem pso_start_run_props (P : PSOParams) (pd vd : ℕ → ℕ → ℚ)
    (hpos : ∀ i, i < P.populationSize → ∀ j, j < P.varCount →
      0 ≤ pd i j ∧ pd i j ≤ 4)
    (hvel : ∀ i, i < P.populationSize → ∀ j, j < P.varCount →
      -1 ≤ vd i j ∧ vd i j ≤ 1) :
    ∃ s' l, startRun P pd vd (initState P) = .ok (s', l) ∧
      l.length = P.populationSize ∧
      (∀ ps ∈ l, ps.vals.length = P.varCount) ∧
      (∀ i, i < P.populationSize → l.getD i ⟨[]⟩ = initPSet P pd i ∧
        (s'.swarm.getD i (⟨[]⟩, [])).1 = initPSet P pd i ∧
        (s'.swarm.getD i (⟨[]⟩, [])).2 = initVel P vd i) ∧
      (∀ i, i < P.populationSize → ∀ j, j < P.varCount →
        (initPSet P pd i).vals.getD j 0 = pd i j ∧
        0 ≤ (initPSet P pd i).vals.getD j 0 ∧
        (initPSet P pd i).vals.getD j 0 ≤ 4 ∧
        (initVel P vd i).getD j 0 = vd i j ∧
        -1 ≤ (initVel P vd i).getD j 0 ∧ (initVel P vd i).getD j 0 ≤ 1) ∧
      ((∀ i₁, i₁ < P.populationSize → ∀ i₂, i₂ < P.populationSize →
          initPSet P pd i₁ = initPSet P pd i₂ → i₁ = i₂) →
        l.Nodup ∧
        (∀ i, i < P.populationSize →
          dictLookup s'.psetMap (initPSet P pd i) = some i)) := by
  have hpos' : ∀ i ∈ List.range P.populationSize,
      ∀ x ∈ (initPSet P pd i).vals, 0 ≤ x := by
    intro i hi x hx
    unfold initPSet at hx
    obtain ⟨j, hj, hfx⟩ := List.mem_map.mp hx
    rw [← hfx]
    exact (hpos i (List.mem_range.mp hi) j (List.mem_range.mp hj)).1
  refine ⟨_, _, startRun_ok P pd vd hpos', ?_, ?_, ?_, ?_, ?_⟩
  · simp
  · intro ps hps
    obtain ⟨i, hi, hfx⟩ := List.mem_map.mp hps
    rw [← hfx]
    simp [initPSet]
  · intro i hi
    refine ⟨getD_map_range _ _ _ _ hi, ?_, ?_⟩
    · show (((List.range P.populationSize).map
        (fun i => (initPSet P pd i, initVel P vd i))).getD i (⟨[]⟩, [])).1 =
          initPSet P pd i
      rw [getD_map_range _ _ _ _ hi]
    · show (((List.range P.populationSize).map
        (fun i => (initPSet P pd i, initVel P vd i))).getD i (⟨[]⟩, [])).2 =
          initVel P vd i
      rw [getD_map_range _ _ _ _ hi]
  · intro i hi j hj
    have h1 : (initPSet P pd i).vals.getD j 0 = pd i j := by
      unfold initPSet
      exact getD_map_range _ _ _ _ hj
    have h2 : (initVel P vd i).getD j 0 = vd i j := by
      unfold initVel
      exact getD_map_range _ _ _ _ hj
    obtain ⟨hp1, hp2⟩ := hpos i hi j hj
    obtain ⟨hv1, hv2⟩ := hvel i hi j hj
    exact ⟨h1, by rw [h1]; exact hp1, by rw [h1]; exact hp2, h2,
      by rw [h2]; exact hv1, by rw [h2]; exact hv2⟩
  · intro hinj
    constructor
    · refine List.Nodup.map_on ?_ (List.nodup_range _)
      intro x hx y hy hxy
      exact hinj x (List.mem_range.mp hx) y (List.mem_range.mp hy) hxy
    · intro i hi
      show dictLookup ((List.range P.populationSize).foldl
        (fun m i => dictInsert m (initPSet P pd i) i) []) (initPSet P pd i) =
          some i
      exact foldl_insert_lookup_self (fun i => initPSet P pd i)
        (List.range P.populationSize) i (List.mem_range.mpr hi)
        (List.nodup_range _)
        (fun j₁ hj₁ j₂ hj₂ h12 => hinj j₁ (List.mem_range.mp hj₁) j₂
          (List.mem_range.mp hj₂) h12) []

/-- Counterexample to C5 as stated: with colliding position draws (all 1),
the two returned PSets are equal — not pairwise distinct — and the
position-to-index map holds the shared position under index 1 only, so the
first particle's registration is lost. -/
theorem pso_start_run_distinct_cx :
    (startRun exP cpd cvd (initState exP)).map Prod.snd =
      .ok [⟨[1]⟩, ⟨[1]⟩] ∧
    ¬ ([⟨[1]⟩, ⟨[1]⟩] : List PSet).Nodup ∧
    (startRun exP cpd cvd (initState exP)).map
      (fun x => dictLookup x.1.psetMap ⟨[1]⟩) = .ok (some 1) := by
  exact ⟨by decide, by decide, by decide⟩

/-- Witness for `pso_start_run_props` with the distinct draws 0 and 1. -/
theorem pso_start_run_props_witness :
    ∃ s' l, startRun exP wpd cvd (initState exP) = .ok (s', l) ∧
      l.length = exP.populationSize ∧
      (∀ ps ∈ l, ps.vals.length = exP.varCount) ∧
      (∀ i, i < exP.populationSize → l.getD i ⟨[]⟩ = initPSet exP wpd i ∧
        (s'.swarm.getD i (⟨[]⟩, [])).1 = initPSet exP wpd i ∧
        (s'.swarm.getD i (⟨[]⟩, [])).2 = initVel exP cvd i) ∧
      (∀ i, i < exP.populationSize → ∀ j, j < exP.varCount →
        (initPSet exP wpd i).vals.getD j 0 = wpd i j ∧
        0 ≤ (initPSet exP wpd i).vals.getD j 0 ∧
        (initPSet exP wpd i).vals.getD j 0 ≤ 4 ∧
        (initVel exP cvd i).getD j 0 = cvd i j ∧
        -1 ≤ (initVel exP cvd i).getD j 0 ∧ (initVel exP cvd i).getD j 0 ≤ 1) ∧
      ((∀ i₁, i₁ < exP.populationSize → ∀ i₂, i₂ < exP.populationSize →
          initPSet exP wpd i₁ = initPSet exP wpd i₂ → i₁ = i₂) →
        l.Nodup ∧
        (∀ i, i < exP.populationSize →
          dictLookup s'.psetMap (initPSet exP wpd i) = some i)) :=
  pso_start_run_props exP wpd cvd (by decide) (by decide)

end ConcreteEvaluation

end PyBNF
